import Mathlib

/-!
# data-whisperer: verified model of the CSV ingestion and query execution core

Shallow embedding of the algorithmic core of the repository:
* `src/lib/csv-parser.ts` (`detectType`, `parseCSVContent`, `generateCSVContent`)
* `executeQueryPlan` and its client-side filter loop from `QueryPage`
  (`src/src/pages/DatasetsPage.tsx`).

Strings are modelled as `List Char`; JavaScript numbers are modelled as an
exact numeric domain (`JsNum`): `NaN`, signed infinities, and exact rationals.
Finite doubles are represented by the exact rational value of the numeric
literal; no property proved below depends on double rounding or overflow.
-/

namespace DataWhisperer

deriving instance DecidableEq for Except

/-- Strings as explicit character lists, so parsing recursions are structural. -/
abbrev Str := List Char

/-- The character class recognised by JavaScript `String.prototype.trim`
(ECMAScript WhiteSpace ∪ LineTerminator). -/
def jsIsWhitespace (c : Char) : Bool :=
  let n := c.toNat
  n = 9 || n = 10 || n = 11 || n = 12 || n = 13 || n = 32 || n = 0xA0 ||
  n = 0x1680 || (0x2000 ≤ n && n ≤ 0x200A) || n = 0x2028 || n = 0x2029 ||
  n = 0x202F || n = 0x205F || n = 0x3000 || n = 0xFEFF

/-- `s.trim()`: drop leading and trailing JS whitespace. -/
def jsTrim (s : Str) : Str :=
  ((s.dropWhile jsIsWhitespace).reverse.dropWhile jsIsWhitespace).reverse

/-- `s.toLowerCase()` (ASCII range; the repository only compares ASCII data). -/
def strToLower (s : Str) : Str := s.map Char.toLower

/-- JavaScript number domain: `NaN`, the two infinities, or a finite value
(kept as an exact rational). -/
inductive JsNum where
  | nan : JsNum
  | posInf : JsNum
  | negInf : JsNum
  | fin (q : ℚ) : JsNum
deriving DecidableEq

def JsNum.isNaN : JsNum → Bool
  | .nan => true
  | _ => false

/-- JavaScript `<` on numbers: any comparison with `NaN` is false. -/
def JsNum.jsLt : JsNum → JsNum → Bool
  | .nan, _ => false
  | _, .nan => false
  | .negInf, .negInf => false
  | .negInf, _ => true
  | _, .negInf => false
  | .posInf, _ => false
  | .fin _, .posInf => true
  | .fin a, .fin b => @decide (a < b) (Rat.instDecidableLt a b)

/-- JavaScript `<=` on numbers: any comparison with `NaN` is false. -/
def JsNum.jsLe : JsNum → JsNum → Bool
  | .nan, _ => false
  | _, .nan => false
  | .negInf, _ => true
  | _, .negInf => false
  | _, .posInf => true
  | .posInf, _ => false
  | .fin a, .fin b => decide (a ≤ b)

/-- JavaScript `>`. -/
def JsNum.jsGt (a b : JsNum) : Bool := JsNum.jsLt b a

/-- JavaScript `>=`. -/
def JsNum.jsGe (a b : JsNum) : Bool := JsNum.jsLe b a

def decDigitsVal (ds : Str) : ℕ :=
  ds.foldl (fun a c => 10 * a + (c.toNat - 48)) 0

def isHexDigit (c : Char) : Bool :=
  c.isDigit || ('a' ≤ c && c ≤ 'f') || ('A' ≤ c && c ≤ 'F')

def hexDigitVal (c : Char) : ℕ :=
  if c.isDigit then c.toNat - 48
  else if 'a' ≤ c && c ≤ 'f' then c.toNat - 87
  else c.toNat - 55

def hexDigitsVal (ds : Str) : ℕ :=
  ds.foldl (fun a c => 16 * a + hexDigitVal c) 0

def isBinDigit (c : Char) : Bool := c = '0' || c = '1'

def binDigitsVal (ds : Str) : ℕ :=
  ds.foldl (fun a c => 2 * a + (c.toNat - 48)) 0

def isOctDigit (c : Char) : Bool := '0' ≤ c && c ≤ '7'

def octDigitsVal (ds : Str) : ℕ :=
  ds.foldl (fun a c => 8 * a + (c.toNat - 48)) 0

/-- An unsigned ECMAScript `StrUnsignedDecimalLiteral` without the `Infinity`
case: `digits [. digits] [e/E [sign] digits]`, with at least one digit in the
integer or fraction part, consuming the whole input. Returns its exact value. -/
def parseUnsignedDecimal (cs : Str) : Option ℚ :=
  let ip := cs.takeWhile Char.isDigit
  let r1 := cs.dropWhile Char.isDigit
  let fp := match r1 with
    | '.' :: t => t.takeWhile Char.isDigit
    | _ => []
  let r2 := match r1 with
    | '.' :: t => t.dropWhile Char.isDigit
    | _ => r1
  if ip = [] && fp = [] then none
  else
    -- the literal `ip.fp × 10^e` has exact value `digits(ip ++ fp) / 10^|fp| × 10^e`
    let digits : ℕ := decDigitsVal (ip ++ fp)
    match r2 with
    | [] => some (mkRat digits (10 ^ fp.length))
    | e :: t =>
      if e = 'e' || e = 'E' then
        let expNeg : Bool := match t with
          | '-' :: _ => true
          | _ => false
        let t2 : Str := match t with
          | '+' :: u => u
          | '-' :: u => u
          | _ => t
        let ds := t2.takeWhile Char.isDigit
        if ds = [] || t2.dropWhile Char.isDigit ≠ [] then none
        else if expNeg then some (mkRat digits (10 ^ (fp.length + decDigitsVal ds)))
        else some (mkRat (digits * 10 ^ decDigitsVal ds) (10 ^ fp.length))
      else none

/-- Signed decimal or `Infinity` part of JS string-to-number coercion. -/
def signedDecOrInf (t : Str) : JsNum :=
  let sgnNeg : Bool := match t with
    | '-' :: _ => true
    | _ => false
  let u : Str := match t with
    | '+' :: u => u
    | '-' :: u => u
    | _ => t
  if u = "Infinity".toList then (if sgnNeg then .negInf else .posInf)
  else
    match parseUnsignedDecimal u with
    | some q => .fin (if sgnNeg then -q else q)
    | none => .nan

/-- JavaScript `Number(s)` on a string: trim, empty means `0`, unsigned
`0x`/`0b`/`0o` literals, otherwise a signed decimal literal or `Infinity`;
anything else is `NaN`. -/
def jsStrToNumber (s : Str) : JsNum :=
  let t := jsTrim s
  match t with
  | [] => .fin 0
  | '0' :: x :: rest =>
    if x = 'x' || x = 'X' then
      (if rest ≠ [] && rest.all isHexDigit then .fin (hexDigitsVal rest) else .nan)
    else if x = 'b' || x = 'B' then
      (if rest ≠ [] && rest.all isBinDigit then .fin (binDigitsVal rest) else .nan)
    else if x = 'o' || x = 'O' then
      (if rest ≠ [] && rest.all isOctDigit then .fin (octDigitsVal rest) else .nan)
    else signedDecOrInf t
  | _ => signedDecOrInf t

/-! ## Record values

A stored record is a JSONB object: string keys mapping to scalar values.
JSON numbers are modelled as integers (every value this pipeline ever stores
is in fact a string; no claim depends on non-integer numerics). A key can be
present with value `undefined` (column projection copies missing keys as
`undefined`), so a record cell is an `Option JsValue`, `none` standing for
`undefined`. -/

inductive JsValue where
  | str (s : Str) : JsValue
  | num (i : Int) : JsValue
  | bool (b : Bool) : JsValue
  | null : JsValue
deriving DecidableEq

/-- A record row: a JS object, i.e. an insertion-ordered association list
with unique keys. -/
abbrev Rec := List (Str × Option JsValue)

/-- A parsed CSV row: a JS object with string cells. -/
abbrev SRow := List (Str × Str)

/-- JS object property write `obj[k] = v`: overwrite in place if the key
exists, otherwise append (insertion order preserved). -/
def objInsert {α : Type} (k : Str) (v : α) : List (Str × α) → List (Str × α)
  | [] => [(k, v)]
  | (k', v') :: rest => if k' = k then (k, v) :: rest else (k', v') :: objInsert k v rest

/-- Association lookup of a JS object property. -/
def objLookup {α : Type} (k : Str) : List (Str × α) → Option α
  | [] => none
  | (k', v) :: rest => if k' = k then some v else objLookup k rest

/-- JS property read `row[c]`: `undefined` when the key is absent or the
stored cell is itself `undefined`. -/
def jsGet (row : Rec) (c : Str) : Option JsValue :=
  match objLookup c row with
  | some v => v
  | none => none

/-- JavaScript `String(x)` on a scalar value. -/
def jsValueToString : JsValue → Str
  | .str s => s
  | .num i => (toString i).toList
  | .bool b => if b then "true".toList else "false".toList
  | .null => "null".toList

/-- `String(x ?? "")`: nullish coalescing to the empty string, then `String`. -/
def coalesceToString (x : Option JsValue) : Str :=
  match x with
  | none => []
  | some .null => []
  | some v => jsValueToString v

/-- JavaScript `Number(x)` on a possibly-`undefined` scalar:
`Number(undefined) = NaN`, `Number(null) = 0`, booleans coerce to 0/1. -/
def jsToNumber (x : Option JsValue) : JsNum :=
  match x with
  | none => .nan
  | some (.str s) => jsStrToNumber s
  | some (.num i) => .fin (i : ℚ)
  | some (.bool b) => .fin (if b then 1 else 0)
  | some .null => .fin 0

/-! ## Type inferencer (`detectType`) -/

inductive CsvType where
  | string : CsvType
  | number : CsvType
  | boolean : CsvType
  | date : CsvType
deriving DecidableEq

/-- The boolean literal pool of `detectType`. -/
def boolValues : List Str :=
  ["true".toList, "false".toList, "yes".toList, "no".toList, "1".toList, "0".toList]

/-- `/^\d{4}-\d{2}-\d{2}/` — ISO date prefix. -/
def matchISO : Str → Bool
  | a :: b :: c :: d :: '-' :: e :: f :: '-' :: g :: h :: _ =>
    a.isDigit && b.isDigit && c.isDigit && d.isDigit &&
    e.isDigit && f.isDigit && g.isDigit && h.isDigit
  | _ => false

/-- `\d{1,2}` followed by a (non-digit) separator, greedy with backtracking,
returning the unconsumed suffix. -/
def matchOneTwoDigitsThen (sep : Char) : Str → Option Str
  | a :: b :: c :: rest =>
    if a.isDigit && b.isDigit && c = sep then some rest
    else if a.isDigit && b = sep then some (c :: rest)
    else none
  | [a, b] => if a.isDigit && b = sep then some [] else none
  | _ => none

/-- `\d{2,4}` at the end of the pattern: succeeds iff at least two digits
follow. -/
def matchTwoDigits : Str → Bool
  | a :: b :: _ => a.isDigit && b.isDigit
  | _ => false

/-- `/^\d{1,2}\/\d{1,2}\/\d{2,4}/` — US-style date prefix. -/
def matchUS (cs : Str) : Bool :=
  match matchOneTwoDigitsThen '/' cs with
  | some r1 =>
    match matchOneTwoDigitsThen '/' r1 with
    | some r2 => matchTwoDigits r2
    | none => false
  | none => false

/-- `/^\d{1,2}-\d{1,2}-\d{2,4}/` — dash-style date prefix. -/
def matchDash (cs : Str) : Bool :=
  match matchOneTwoDigitsThen '-' cs with
  | some r1 =>
    match matchOneTwoDigitsThen '-' r1 with
    | some r2 => matchTwoDigits r2
    | none => false
  | none => false

/-- `detectType` from `csv-parser.ts`: boolean, then number, then date, else
string. The date threshold `count > nonEmpty.length * 0.7` is rendered in
exact arithmetic as `10 * count > 7 * length`; the double computation can
differ at exact-boundary counts (e.g. 63 of 90, where `90 * 0.7` rounds just
below 63, so the code says date and the exact comparison says string) — no
statement proved below evaluates the threshold at such a boundary. -/
def detectType (values : List Str) : CsvType :=
  let nonEmpty := values.filter (fun v => !(jsTrim v).isEmpty)
  if nonEmpty.isEmpty then .string
  else if nonEmpty.all (fun v => boolValues.contains (strToLower v)) then .boolean
  else if nonEmpty.all (fun v => !(jsStrToNumber v).isNaN && !(jsTrim v).isEmpty) then .number
  else if 10 * (nonEmpty.filter (fun v => matchISO v || matchUS v || matchDash v)).length
          > 7 * nonEmpty.length then .date
  else .string

/-! ## CSV parser (`parseCSVContent`) -/

/-- `content.split(/\r?\n/)`. -/
def splitLines : Str → List Str
  | [] => [[]]
  | '\r' :: '\n' :: rest => [] :: splitLines rest
  | '\n' :: rest => [] :: splitLines rest
  | c :: rest =>
    match splitLines rest with
    | [] => [[c]]
    | l :: ls => (c :: l) :: ls

/-- The surviving lines of a CSV text: split on line boundaries, then drop
lines that are empty after trimming. -/
def csvLines (content : Str) : List Str :=
  (splitLines content).filter (fun l => !(jsTrim l).isEmpty)

/-- The quote-aware field splitter loop of `parseLine`: current input,
`inQuotes` flag, current field buffer, fields accumulated so far. A quote
inside quotes followed by another quote is an escape; otherwise a quote
toggles the flag; an unquoted comma ends the field; anything else is
appended to the field buffer. -/
def parseLineAux : Str → Bool → Str → List Str → List Str
  | [], _, cur, res => res ++ [jsTrim cur]
  | '"' :: '"' :: rest, true, cur, res => parseLineAux rest true (cur ++ ['"']) res
  | '"' :: rest, true, cur, res => parseLineAux rest false cur res
  | '"' :: rest, false, cur, res => parseLineAux rest true cur res
  | ',' :: rest, false, cur, res => parseLineAux rest false [] (res ++ [jsTrim cur])
  | c :: rest, inQ, cur, res => parseLineAux rest inQ (cur ++ [c]) res

/-- `parseLine` from `parseCSVContent`: split one line into trimmed fields,
honouring quotes and escaped quotes. -/
def parseLine (line : Str) : List Str := parseLineAux line false [] []

/-- `headers.forEach((h, idx) => { row[h] = values[idx] ?? "" })`, consuming
one value per header (missing trailing values become the empty string, extra
values are dropped). -/
def buildRow : List Str → List Str → SRow → SRow
  | [], _, row => row
  | h :: hs, vs, row => buildRow hs vs.tail (objInsert h (vs.headD []) row)

/-- The value `buildRow` ends up storing for key `a`: the value aligned with
the last occurrence of `a` among the headers (later writes win). -/
def lastVal (a : Str) : List Str → List Str → Option Str
  | [], _ => none
  | h :: hs, vs =>
    match lastVal a hs vs.tail with
    | some w => some w
    | none => if h = a then some (vs.headD []) else none

structure ColumnInfo where
  name : Str
  detectedType : CsvType
  sampleValues : List Str
deriving DecidableEq

structure ParsedCSV where
  headers : List Str
  rows : List SRow
  columns : List ColumnInfo
  totalRows : ℕ
deriving DecidableEq

inductive ParseError where
  | emptyInput : ParseError
  | missingHeader : ParseError
deriving DecidableEq

/-- `parseCSVContent`: split into surviving lines, parse the header line,
reject a degenerate header, build the rows, and infer the column schema from
a sample of at most the first 100 rows. -/
def parseCSVContent (content : Str) : Except ParseError ParsedCSV :=
  match csvLines content with
  | [] => .error .emptyInput
  | line0 :: rest =>
    let headers := parseLine line0
    if headers.isEmpty || headers.all List.isEmpty then .error .missingHeader
    else
      let rows := rest.map (fun line => buildRow headers (parseLine line) [])
      let sampleSize := min rows.length 100
      let columns := headers.map (fun name =>
        let sampleValues := (rows.take sampleSize).map (fun r => (objLookup name r).getD [])
        ColumnInfo.mk name (detectType sampleValues) (sampleValues.take 5))
      .ok (ParsedCSV.mk headers rows columns rows.length)

/-! ## CSV serializer (`generateCSVContent`) -/

/-- `val.replace(/"/g, '""')`. -/
def escapeQuotes : Str → Str
  | [] => []
  | c :: rest => (if c = '"' then ['"', '"'] else [c]) ++ escapeQuotes rest

/-- Wrap a field in double quotes with internal quotes doubled. -/
def quoteField (v : Str) : Str := '"' :: (escapeQuotes v ++ ['"'])

/-- `fields.join(",")`. -/
def joinComma : List Str → Str
  | [] => []
  | [f] => f
  | f :: fs => f ++ ',' :: joinComma fs

/-- `lines.join("\n")`. -/
def joinLines : List Str → Str
  | [] => []
  | [l] => l
  | l :: ls => l ++ '\n' :: joinLines ls

/-- The header cell rendering `` `"${c}"` ``: wrapped in double quotes with
**no** quote doubling (unlike data cells, header names are not escaped). -/
def quoteRaw (v : Str) : Str := '"' :: (v ++ ['"'])

/-- `generateCSVContent(rows, columns?)`: empty input yields the empty
string; otherwise wrap every header name in quotes without escaping, wrap
every data cell (`String(row[c] ?? "")`) in quotes with internal quotes
doubled, and join lines with a single newline. -/
def generateCSVContent (rows : List Rec) (columns : Option (List Str)) : Str :=
  match rows with
  | [] => []
  | r0 :: _ =>
    let cols := columns.getD (r0.map Prod.fst)
    let header := joinComma (cols.map quoteRaw)
    let dataLines := rows.map (fun row =>
      joinComma (cols.map (fun c => quoteField (coalesceToString (jsGet row c)))))
    joinLines (header :: dataLines)

/-- View a parsed string row as a record (every cell a defined JSON string),
as the import path stores it. -/
def recOfSRow (r : SRow) : Rec := r.map (fun kv => (kv.1, some (JsValue.str kv.2)))

/-! ## Query filter engine and plan executor (`executeQueryPlan`) -/

structure QueryFilter where
  column : Str
  operator : Str
  value : JsValue
deriving DecidableEq

structure QueryPlan where
  dataset_ids : List Str
  filters : List QueryFilter
  columns : Option (List Str)
  limit : Option Int
deriving DecidableEq

/-- `val.includes(target)`: substring test. -/
def strIncludes (hay needle : Str) : Bool :=
  if needle.isPrefixOf hay then true
  else
    match hay with
    | [] => false
    | _ :: t => strIncludes t needle

/-- One filter applied to one row, exactly as the `switch` in
`executeQueryPlan`: the string operators compare lower-cased
`String(row[c] ?? "")` with lower-cased `String(filter.value)`; the
relational operators compare `Number(row[c])` (no coalescing — an absent
cell coerces to `NaN`) with `Number(filter.value)`; an unrecognized operator
returns `true`. -/
def evalFilter (f : QueryFilter) (row : Rec) : Bool :=
  let val := strToLower (coalesceToString (jsGet row f.column))
  let target := strToLower (jsValueToString f.value)
  if f.operator = "equals".toList then val == target
  else if f.operator = "contains".toList then strIncludes val target
  else if f.operator = "starts_with".toList then target.isPrefixOf val
  else if f.operator = "gt".toList then
    JsNum.jsGt (jsToNumber (jsGet row f.column)) (jsToNumber (some f.value))
  else if f.operator = "lt".toList then
    JsNum.jsLt (jsToNumber (jsGet row f.column)) (jsToNumber (some f.value))
  else if f.operator = "gte".toList then
    JsNum.jsGe (jsToNumber (jsGet row f.column)) (jsToNumber (some f.value))
  else if f.operator = "lte".toList then
    JsNum.jsLe (jsToNumber (jsGet row f.column)) (jsToNumber (some f.value))
  else true

/-- `for (const filter of plan.filters) rows = rows.filter(...)`. -/
def applyFilters (rows : List Rec) (filters : List QueryFilter) : List Rec :=
  filters.foldl (fun rs f => rs.filter (fun row => evalFilter f row)) rows

/-- `plan.columns!.forEach((c) => { filtered[c] = row[c] })`: build the
projected record (missing keys are copied as `undefined`). -/
def projectColumns (cols : List Str) (row : Rec) : Rec :=
  cols.foldl (fun acc c => objInsert c (jsGet row c) acc) []

/-- `if (plan.columns?.length) rows = rows.map(...)`: projection runs only
when `columns` is present and non-empty. -/
def projectStep (columns : Option (List Str)) (rows : List Rec) : List Rec :=
  match columns with
  | some cols => if cols.length ≠ 0 then rows.map (projectColumns cols) else rows
  | none => rows

/-- The per-dataset loop of `executeQueryPlan`, with the record store
abstracted as a fallible `fetch` function. -/
def executeGo {ε : Type} (plan : QueryPlan) (fetch : Str → Int → Except ε (List Rec)) :
    List Str → List Rec → Except ε (List Rec)
  | [], acc => .ok acc
  | d :: rest, acc =>
    match fetch d (plan.limit.getD 200) with
    | .error e => .error e
    | .ok data =>
      executeGo plan fetch rest
        (acc ++ projectStep plan.columns (applyFilters data plan.filters))

/-- `executeQueryPlan(plan)`: sequentially fetch each listed dataset with the
plan's limit (default 200), filter, optionally project, and concatenate; the
first fetch error aborts the whole execution. -/
def executeQueryPlan {ε : Type} (plan : QueryPlan)
    (fetch : Str → Int → Except ε (List Rec)) : Except ε (List Rec) :=
  executeGo plan fetch plan.dataset_ids []


/-! ## Generic facts about the embedded operations -/

theorem jsLt_nan_right (a : JsNum) : JsNum.jsLt a .nan = false := by
  cases a <;> rfl

theorem jsLt_nan_left (a : JsNum) : JsNum.jsLt .nan a = false := by
  cases a <;> rfl

theorem jsLe_nan_right (a : JsNum) : JsNum.jsLe a .nan = false := by
  cases a <;> rfl

theorem jsLe_nan_left (a : JsNum) : JsNum.jsLe .nan a = false := by
  cases a <;> rfl

theorem applyFilters_nil (rows : List Rec) : applyFilters rows [] = rows := rfl

theorem applyFilters_cons (rows : List Rec) (f : QueryFilter) (fs : List QueryFilter) :
    applyFilters rows (f :: fs) = applyFilters (rows.filter (fun row => evalFilter f row)) fs := rfl

theorem executeGo_congr {E : Type} (p q : QueryPlan) (fetch : Str → Int → Except E (List Rec))
    (hfil : p.filters = q.filters) (hlim : p.limit = q.limit)
    (hcols : ∀ rows, projectStep p.columns rows = projectStep q.columns rows) :
    ∀ ids acc, executeGo p fetch ids acc = executeGo q fetch ids acc := by
  intro ids
  induction ids with
  | nil => intro acc; rfl
  | cons d rest ih =>
    intro acc
    simp only [executeGo, hlim, hfil]
    cases hf : fetch d (q.limit.getD 200) with
    | error er => rfl
    | ok data =>
      show executeGo p fetch rest (acc ++ projectStep p.columns (applyFilters data q.filters))
        = executeGo q fetch rest (acc ++ projectStep q.columns (applyFilters data q.filters))
      rw [hcols]
      exact ih _

theorem applyFilters_sublist (filters : List QueryFilter) (rows : List Rec) :
    (applyFilters rows filters).Sublist rows := by
  induction filters generalizing rows with
  | nil => exact List.Sublist.refl rows
  | cons f fs ih =>
    rw [applyFilters_cons]
    exact (ih (rows.filter (fun row => evalFilter f row))).trans (List.filter_sublist rows)



/-! ## The claims -/

/-- C9: for every filter list and record sequence, applying the filters yields
a subsequence of the input (members of the input, order preserved, cardinality
never increasing), and the empty filter list returns the input unchanged. -/
theorem C9_applyFilters_subsequence (filters : List QueryFilter) (rows : List Rec) :
    (applyFilters rows filters).Sublist rows ∧
    (applyFilters rows filters).length ≤ rows.length ∧
    applyFilters rows [] = rows :=
  ⟨applyFilters_sublist filters rows,
   (applyFilters_sublist filters rows).length_le,
   applyFilters_nil rows⟩

/-- C7: a filter whose operator is none of the seven recognized ones passes
every row through unfiltered (fail-open): the row evaluates to `true` and the
row list survives unchanged. -/
theorem C7_unknown_operator_fail_open (f : QueryFilter) (row : Rec) (rows : List Rec)
    (h : f.operator ∉ ["equals".toList, "contains".toList, "starts_with".toList,
      "gt".toList, "lt".toList, "gte".toList, "lte".toList]) :
    evalFilter f row = true ∧ applyFilters rows [f] = rows := by
  simp only [List.mem_cons, List.not_mem_nil, or_false, not_or] at h
  obtain ⟨h1, h2, h3, h4, h5, h6, h7⟩ := h
  constructor
  · simp only [evalFilter, if_neg h1, if_neg h2, if_neg h3, if_neg h4, if_neg h5,
      if_neg h6, if_neg h7]
  · rw [applyFilters_cons, applyFilters_nil]
    apply List.filter_eq_self.mpr
    intro r _
    simp only [evalFilter, if_neg h1, if_neg h2, if_neg h3, if_neg h4, if_neg h5,
      if_neg h6, if_neg h7]

/-- Closed instance of C7: the made-up operator `matches` keeps the row. -/
theorem C7_witness :
    evalFilter (QueryFilter.mk "state".toList "matches".toList (JsValue.str "co".toList))
        (recOfSRow [("state".toList, "CO".toList)]) = true ∧
      applyFilters [recOfSRow [("state".toList, "CO".toList)]]
        [QueryFilter.mk "state".toList "matches".toList (JsValue.str "co".toList)]
        = [recOfSRow [("state".toList, "CO".toList)]] :=
  C7_unknown_operator_fail_open _ _ _ (by decide)

/-- C1 fails on the code: for a relational filter on a column the row lacks,
the code compares `Number(undefined) = NaN` (excluding the row), not the
numeric coercion of the empty string (which is `0` and would keep the row for
`lt 5`). -/
theorem C1_counterexample :
    evalFilter (QueryFilter.mk "x".toList "lt".toList (JsValue.str "5".toList)) [] = false ∧
    JsNum.jsLt (jsStrToNumber []) (jsToNumber (some (JsValue.str "5".toList))) = true := by
  decide

/-- C1 amended: for `gt`/`lt`/`gte`/`lte`, a row with no value at the filter
column coerces to `NaN`, so the relational comparison is false for every
relational operator and the row is excluded (the empty-string substitution
applies only to the string operators). -/
theorem C1_missing_value_relational_excludes (f : QueryFilter) (row : Rec)
    (hop : f.operator ∈ ["gt".toList, "lt".toList, "gte".toList, "lte".toList])
    (hmiss : jsGet row f.column = none) :
    evalFilter f row = false := by
  obtain ⟨col, op, v⟩ := f
  have hm : jsGet row col = none := hmiss
  simp only [List.mem_cons, List.not_mem_nil, or_false] at hop
  rcases hop with h | h | h | h <;> subst h
  · show JsNum.jsGt (jsToNumber (jsGet row col)) (jsToNumber (some v)) = false
    rw [hm]
    exact jsLt_nan_right _
  · show JsNum.jsLt (jsToNumber (jsGet row col)) (jsToNumber (some v)) = false
    rw [hm]
    exact jsLt_nan_left _
  · show JsNum.jsGe (jsToNumber (jsGet row col)) (jsToNumber (some v)) = false
    rw [hm]
    exact jsLe_nan_right _
  · show JsNum.jsLe (jsToNumber (jsGet row col)) (jsToNumber (some v)) = false
    rw [hm]
    exact jsLe_nan_left _

/-- Closed instance of the amended C1: a `gte` filter on an absent column
rejects the empty record. -/
theorem C1_witness :
    evalFilter (QueryFilter.mk "amount".toList "gte".toList (JsValue.num 0)) [] = false :=
  C1_missing_value_relational_excludes _ _ (by decide) rfl

/-- C2 fails on the code: only 2 of the 3 values match a date pattern and
`2 > 3 * 0.7` is false, so `detectType` does not return `date` here. -/
theorem C2_counterexample :
    detectType (["2024-01-01", "2024-02-02", "x"].map String.toList) ≠ CsvType.date := by
  decide

/-- C2 amended: on `["2024-01-01","2024-02-02","x"]` the 2-of-3 (≈66.7%) date
matches fall short of the strict more-than-70% threshold, so `detectType`
returns `string`. -/
theorem C2_two_of_three_dates_is_string :
    detectType (["2024-01-01", "2024-02-02", "x"].map String.toList) = CsvType.string := by
  decide

/-- C8 fails on the code: a value sequence with no non-empty member (all of
whose non-empty members vacuously belong to the boolean pool) is classified
`string`, not `boolean`. -/
theorem C8_counterexample :
    detectType ["".toList] ≠ CsvType.boolean ∧ detectType ["".toList] = CsvType.string := by
  decide

/-- C8 amended: a value sequence with at least one non-empty member, all of
whose non-empty members belong case-insensitively to
`{true,false,yes,no,1,0}`, is classified `boolean` — the boolean check runs
before the number check. -/
theorem C8_boolean_precedes_number (values : List Str)
    (h1 : values.filter (fun v => !(jsTrim v).isEmpty) ≠ [])
    (h2 : ∀ v ∈ values, jsTrim v ≠ [] → strToLower v ∈ boolValues) :
    detectType values = CsvType.boolean := by
  simp only [detectType]
  rw [if_neg, if_pos]
  · rw [List.all_eq_true]
    intro v hv
    rw [List.mem_filter] at hv
    have hne : jsTrim v ≠ [] := by
      intro he
      simp [he] at hv
    have := h2 v hv.1 hne
    exact List.elem_eq_true_of_mem this
  · intro he
    rw [List.isEmpty_iff] at he
    exact h1 he

/-- Closed instance of the amended C8: `["true","no","1"]` is `boolean` even
though `"1"` alone would satisfy the number rule. -/
theorem C8_witness :
    detectType (["true", "no", "1"].map String.toList) = CsvType.boolean :=
  C8_boolean_precedes_number _ (by decide) (by decide)

/-- C10: a present-but-empty `columns` list is falsy in
`plan.columns?.length`, so projection is skipped: execution behaves exactly
as if `columns` were absent, and every record keeps all of its keys. -/
theorem C10_empty_columns_skips_projection {E : Type} (plan : QueryPlan)
    (fetch : Str → Int → Except E (List Rec)) (h : plan.columns = some []) :
    executeQueryPlan plan fetch
        = executeQueryPlan (QueryPlan.mk plan.dataset_ids plan.filters none plan.limit) fetch ∧
      ∀ rows, projectStep plan.columns rows = rows := by
  have hstep : ∀ rows, projectStep plan.columns rows = rows := by
    intro rows
    rw [h]
    rfl
  exact ⟨executeGo_congr plan (QueryPlan.mk plan.dataset_ids plan.filters none plan.limit)
    fetch rfl rfl (fun rows => hstep rows) plan.dataset_ids [], hstep⟩

/-- Closed instance of C10: with `columns = some []` the executor output
matches the `columns = none` output. -/
theorem C10_witness :
    executeQueryPlan (QueryPlan.mk ["A".toList] [] (some []) none)
        (fun _ _ => (Except.ok [recOfSRow [("k".toList, "v".toList)]] : Except String (List Rec)))
      = executeQueryPlan (QueryPlan.mk ["A".toList] [] none none)
        (fun _ _ => (Except.ok [recOfSRow [("k".toList, "v".toList)]] : Except String (List Rec))) :=
  (C10_empty_columns_skips_projection _ _ rfl).1

theorem executeGo_all_ok {E : Type} (plan : QueryPlan)
    (fetch : Str → Int → Except E (List Rec)) (results : Str → List Rec) :
    ∀ (ids : List Str) (acc : List Rec),
      (∀ d ∈ ids, fetch d (plan.limit.getD 200) = .ok (results d)) →
      executeGo plan fetch ids acc
        = .ok (acc ++ (ids.map
            (fun d => projectStep plan.columns (applyFilters (results d) plan.filters))).flatten) := by
  intro ids
  induction ids with
  | nil => intro acc _; simp [executeGo]
  | cons d rest ih =>
    intro acc h
    have hd := h d (List.mem_cons_self d rest)
    show (match fetch d (plan.limit.getD 200) with
      | .error e => (.error e : Except E (List Rec))
      | .ok data => executeGo plan fetch rest
          (acc ++ projectStep plan.columns (applyFilters data plan.filters)))
      = _
    rw [hd]
    show executeGo plan fetch rest
        (acc ++ projectStep plan.columns (applyFilters (results d) plan.filters)) = _
    rw [ih _ (fun x hx => h x (List.mem_cons_of_mem d hx))]
    simp [List.append_assoc]

theorem executeGo_first_error {E : Type} (plan : QueryPlan)
    (fetch : Str → Int → Except E (List Rec)) (d : Str) (post : List Str) (er : E)
    (herr : fetch d (plan.limit.getD 200) = .error er) :
    ∀ (pre : List Str) (acc : List Rec),
      (∀ x ∈ pre, ∃ rs, fetch x (plan.limit.getD 200) = .ok rs) →
      executeGo plan fetch (pre ++ d :: post) acc = .error er := by
  intro pre
  induction pre with
  | nil =>
    intro acc _
    show (match fetch d (plan.limit.getD 200) with
      | .error e => (.error e : Except E (List Rec))
      | .ok data => executeGo plan fetch post
          (acc ++ projectStep plan.columns (applyFilters data plan.filters)))
      = _
    rw [herr]
  | cons x pre ih =>
    intro acc h
    obtain ⟨rs, hrs⟩ := h x (List.mem_cons_self x pre)
    show (match fetch x (plan.limit.getD 200) with
      | .error e => (.error e : Except E (List Rec))
      | .ok data => executeGo plan fetch (pre ++ d :: post)
          (acc ++ projectStep plan.columns (applyFilters data plan.filters)))
      = _
    rw [hrs]
    exact ih _ (fun y hy => h y (List.mem_cons_of_mem x hy))

/-- C3: when every per-dataset fetch (at bound `plan.limit`, default 200)
succeeds, execution returns the concatenation, in listed order of
`plan.dataset_ids`, of each dataset's fetched records after filtering and the
optional projection — no deduplication or merging, and no combined-size cap. -/
theorem C3_execute_concatenates {E : Type} (plan : QueryPlan)
    (fetch : Str → Int → Except E (List Rec)) (results : Str → List Rec)
    (hfetch : ∀ d ∈ plan.dataset_ids, fetch d (plan.limit.getD 200) = .ok (results d)) :
    executeQueryPlan plan fetch
      = .ok ((plan.dataset_ids.map
          (fun d => projectStep plan.columns (applyFilters (results d) plan.filters))).flatten) := by
  have h := executeGo_all_ok plan fetch results plan.dataset_ids [] hfetch
  simpa [executeQueryPlan] using h

/-- Closed instance of C3: two dataset ids, no filters, limit 200, fetches of
3 and 2 rows yield exactly 5 rows in first-then-second dataset order. -/
theorem C3_witness :
    @executeQueryPlan String
        (QueryPlan.mk ["A".toList, "B".toList] [] none (some 200))
        (fun d _ =>
          if d = "A".toList then
            .ok [recOfSRow [("n".toList, "1".toList)], recOfSRow [("n".toList, "2".toList)],
              recOfSRow [("n".toList, "3".toList)]]
          else
            .ok [recOfSRow [("n".toList, "4".toList)], recOfSRow [("n".toList, "5".toList)]])
      = .ok [recOfSRow [("n".toList, "1".toList)], recOfSRow [("n".toList, "2".toList)],
          recOfSRow [("n".toList, "3".toList)], recOfSRow [("n".toList, "4".toList)],
          recOfSRow [("n".toList, "5".toList)]] := by
  rw [C3_execute_concatenates
    (QueryPlan.mk ["A".toList, "B".toList] [] none (some 200))
    (fun d _ =>
      if d = "A".toList then
        .ok [recOfSRow [("n".toList, "1".toList)], recOfSRow [("n".toList, "2".toList)],
          recOfSRow [("n".toList, "3".toList)]]
      else
        .ok [recOfSRow [("n".toList, "4".toList)], recOfSRow [("n".toList, "5".toList)]])
    (fun d =>
      if d = "A".toList then
        [recOfSRow [("n".toList, "1".toList)], recOfSRow [("n".toList, "2".toList)],
          recOfSRow [("n".toList, "3".toList)]]
      else
        [recOfSRow [("n".toList, "4".toList)], recOfSRow [("n".toList, "5".toList)]])
    (by decide)]
  decide

/-- C4: if the fetch of a listed dataset id fails (all earlier listed fetches
succeeding), the whole execution aborts with exactly that error — no partial
results are returned. -/
theorem C4_fetch_error_aborts {E : Type} (plan : QueryPlan)
    (fetch : Str → Int → Except E (List Rec)) (pre : List Str) (d : Str)
    (post : List Str) (er : E)
    (hids : plan.dataset_ids = pre ++ d :: post)
    (hpre : ∀ x ∈ pre, ∃ rs, fetch x (plan.limit.getD 200) = .ok rs)
    (herr : fetch d (plan.limit.getD 200) = .error er) :
    executeQueryPlan plan fetch = .error er := by
  show executeGo plan fetch plan.dataset_ids [] = .error er
  rw [hids]
  exact executeGo_first_error plan fetch d post er herr pre [] hpre

/-- Closed instance of C4: the second dataset's fetch fails and the whole
execution surfaces that error even though the first fetch succeeded. -/
theorem C4_witness :
    @executeQueryPlan String
        (QueryPlan.mk ["A".toList, "B".toList] [] none (some 200))
        (fun d _ =>
          if d = "A".toList then .ok [recOfSRow [("n".toList, "1".toList)]]
          else .error "storage failure")
      = .error "storage failure" := by
  apply @C4_fetch_error_aborts String
    (QueryPlan.mk ["A".toList, "B".toList] [] none (some 200)) _
    ["A".toList] "B".toList [] "storage failure" rfl
  · intro x hx
    have hx2 : x = "A".toList := by simpa using hx
    subst hx2
    exact ⟨[recOfSRow [("n".toList, "1".toList)]], rfl⟩
  · decide

theorem parseCSVContent_of_lines_nil (content : Str) (h : csvLines content = []) :
    parseCSVContent content = .error .emptyInput := by
  simp only [parseCSVContent.eq_def, h]

theorem parseCSVContent_of_bad_header (content : Str) (l0 : Str) (rest : List Str)
    (h : csvLines content = l0 :: rest)
    (hcond : ((parseLine l0).isEmpty || (parseLine l0).all List.isEmpty) = true) :
    parseCSVContent content = .error .missingHeader := by
  simp only [parseCSVContent.eq_def, h, hcond, if_true]

theorem parseCSVContent_of_good_header (content : Str) (l0 : Str) (rest : List Str)
    (h : csvLines content = l0 :: rest)
    (hcond : ((parseLine l0).isEmpty || (parseLine l0).all List.isEmpty) = false) :
    ∃ p, parseCSVContent content = .ok p
      ∧ p.headers = parseLine l0
      ∧ p.rows = rest.map (fun line => buildRow (parseLine l0) (parseLine line) []) := by
  simp only [parseCSVContent.eq_def, h, hcond, Bool.false_eq_true, if_false]
  exact ⟨_, rfl, rfl, rfl⟩

/-- C6: the parser fails with `emptyInput` exactly when no line survives
blank-line filtering, fails with `missingHeader` exactly when the first
surviving line parses to no columns or to all-empty header tokens, and
returns a `ParsedCSV` in every other case. -/
theorem C6_parse_error_cases (content : Str) :
    (parseCSVContent content = .error .emptyInput ↔ csvLines content = []) ∧
    (parseCSVContent content = .error .missingHeader ↔
      ∃ l0 rest, csvLines content = l0 :: rest ∧
        ((parseLine l0).isEmpty || (parseLine l0).all List.isEmpty) = true) ∧
    ((∃ p, parseCSVContent content = .ok p) ∨
      parseCSVContent content = .error .emptyInput ∨
      parseCSVContent content = .error .missingHeader) := by
  cases hc : csvLines content with
  | nil =>
    have hp := parseCSVContent_of_lines_nil content hc
    rw [hp]
    refine ⟨by simp, ?_, by simp⟩
    constructor
    · intro h
      exact absurd h (by simp)
    · rintro ⟨l0, rest, h, -⟩
      exact absurd h (by simp)
  | cons l0 rest =>
    cases hcond : ((parseLine l0).isEmpty || (parseLine l0).all List.isEmpty) with
    | true =>
      have hp := parseCSVContent_of_bad_header content l0 rest hc hcond
      rw [hp]
      refine ⟨by simp, ?_, by simp⟩
      exact iff_of_true rfl ⟨l0, rest, rfl, hcond⟩
    | false =>
      obtain ⟨p, hp, -, -⟩ := parseCSVContent_of_good_header content l0 rest hc hcond
      rw [hp]
      refine ⟨by simp, ?_, Or.inl ⟨p, rfl⟩⟩
      constructor
      · intro h
        exact absurd h (by simp)
      · rintro ⟨l0a, resta, ha, hconda⟩
        rw [List.cons.injEq] at ha
        rw [ha.1] at hcond
        rw [hconda] at hcond
        exact absurd hcond (by simp)

/-- Closed instance of C6: a first line of `",,"` raises the missing-header
error. -/
theorem C6_witness : parseCSVContent ",,".toList = .error .missingHeader :=
  (C6_parse_error_cases ",,".toList).2.1.mpr ⟨",,".toList, [], by decide, by decide⟩

/-! ## Trim lemmas -/

theorem dropWhile_dropWhile (p : Char → Bool) (l : Str) :
    (l.dropWhile p).dropWhile p = l.dropWhile p := by
  induction l with
  | nil => rfl
  | cons c t ih =>
    by_cases h : p c
    · simp [List.dropWhile_cons, h, ih]
    · rw [Bool.not_eq_true] at h
      simp [List.dropWhile_cons, h]

theorem dropWhile_of_append_eq_self (p : Char → Bool) (A t : Str)
    (h : (A ++ t).dropWhile p = A ++ t) : A.dropWhile p = A := by
  cases A with
  | nil => rfl
  | cons c rest =>
    rw [List.cons_append, List.dropWhile_cons] at h
    by_cases hc : p c
    · rw [if_pos hc] at h
      have hlen := congrArg List.length h
      have hle := (List.dropWhile_sublist p (l := rest ++ t)).length_le
      simp only [List.length_cons, List.length_append] at hlen hle
      omega
    · rw [List.dropWhile_cons, if_neg hc]

/-- `jsTrim` written as leading-trim then trailing-trim. -/
theorem jsTrim_eq (s : Str) :
    jsTrim s = ((s.dropWhile jsIsWhitespace).reverse.dropWhile jsIsWhitespace).reverse := rfl

theorem jsTrim_prefix_decomp (s : Str) :
    ∃ t, s.dropWhile jsIsWhitespace = jsTrim s ++ t := by
  refine ⟨((s.dropWhile jsIsWhitespace).reverse.takeWhile jsIsWhitespace).reverse, ?_⟩
  rw [jsTrim_eq]
  rw [← List.reverse_append, List.takeWhile_append_dropWhile, List.reverse_reverse]

theorem jsTrim_no_leading (s : Str) : (jsTrim s).dropWhile jsIsWhitespace = jsTrim s := by
  obtain ⟨t, ht⟩ := jsTrim_prefix_decomp s
  have h0 := dropWhile_dropWhile jsIsWhitespace s
  rw [ht] at h0
  exact dropWhile_of_append_eq_self jsIsWhitespace _ _ h0

theorem jsTrim_idem (s : Str) : jsTrim (jsTrim s) = jsTrim s := by
  rw [jsTrim_eq (jsTrim s), jsTrim_no_leading, jsTrim_eq s,
    List.reverse_reverse, dropWhile_dropWhile]

theorem jsTrim_sublist (s : Str) : (jsTrim s).Sublist s := by
  rw [jsTrim_eq]
  have h1 : (((s.dropWhile jsIsWhitespace).reverse.dropWhile jsIsWhitespace).reverse).Sublist
      ((s.dropWhile jsIsWhitespace).reverse.reverse) :=
    (List.dropWhile_sublist jsIsWhitespace).reverse
  rw [List.reverse_reverse] at h1
  exact h1.trans (List.dropWhile_sublist jsIsWhitespace)

theorem mem_of_mem_jsTrim {a : Char} {s : Str} (h : a ∈ jsTrim s) : a ∈ s :=
  (jsTrim_sublist s).subset h

theorem mem_dropWhile_of_mem {p : Char → Bool} {a : Char} {l : Str}
    (ha : a ∈ l) (hp : p a = false) : a ∈ l.dropWhile p := by
  rw [← List.takeWhile_append_dropWhile p l, List.mem_append] at ha
  rcases ha with h | h
  · have := List.mem_takeWhile_imp h
    rw [hp] at this
    exact absurd this (by simp)
  · exact h

theorem mem_jsTrim_of_mem {a : Char} {s : Str} (ha : a ∈ s)
    (hp : jsIsWhitespace a = false) : a ∈ jsTrim s := by
  rw [jsTrim_eq]
  rw [List.mem_reverse]
  apply mem_dropWhile_of_mem _ hp
  rw [List.mem_reverse]
  exact mem_dropWhile_of_mem ha hp

theorem jsTrim_ne_nil_of_quote {s : Str} (h : '"' ∈ s) : jsTrim s ≠ [] := by
  intro he
  have := mem_jsTrim_of_mem h (by decide)
  rw [he] at this
  exact absurd this (List.not_mem_nil _)

/-! ## Equations for the field splitter -/

theorem parseLineAux_nil (inQ : Bool) (cur : Str) (res : List Str) :
    parseLineAux [] inQ cur res = res ++ [jsTrim cur] := rfl

theorem parseLineAux_escape (rest : Str) (cur : Str) (res : List Str) :
    parseLineAux ('"' :: '"' :: rest) true cur res
      = parseLineAux rest true (cur ++ ['"']) res := rfl

theorem parseLineAux_open (rest : Str) (cur : Str) (res : List Str) :
    parseLineAux ('"' :: rest) false cur res = parseLineAux rest true cur res := by
  cases rest with
  | nil => rfl
  | cons d rest2 =>
    rw [parseLineAux.eq_def]
    split <;> (try simp_all)
    rename_i heq hq1 hq0
    exact absurd heq.1.symm hq1

theorem parseLineAux_close (rest : Str) (cur : Str) (res : List Str)
    (h : rest.head? ≠ some '"') :
    parseLineAux ('"' :: rest) true cur res = parseLineAux rest false cur res := by
  cases rest with
  | nil => rfl
  | cons d rest2 =>
    rw [parseLineAux.eq_def]
    split <;> (try simp_all)
    rename_i heq hq0
    exact absurd heq.1.symm hq0

theorem parseLineAux_comma (rest : Str) (cur : Str) (res : List Str) :
    parseLineAux (',' :: rest) false cur res
      = parseLineAux rest false [] (res ++ [jsTrim cur]) := by
  cases rest with
  | nil => rfl
  | cons d rest2 =>
    rw [parseLineAux.eq_def]
    split <;> (try simp_all)
    rename_i heq hq1 hq0
    exact absurd heq.1.symm hq0

theorem parseLineAux_other (c : Char) (rest : Str) (inQ : Bool) (cur : Str) (res : List Str)
    (hq : c ≠ '"') (hc : c = ',' → inQ = true) :
    parseLineAux (c :: rest) inQ cur res = parseLineAux rest inQ (cur ++ [c]) res := by
  rw [parseLineAux.eq_def]
  split <;> simp_all

/-! ## Round-trip of a line of quoted fields through the splitter -/

theorem parseLineAux_escaped_field (v : Str) : ∀ (rest cur : Str) (res : List Str),
    rest.head? ≠ some '"' →
    parseLineAux (escapeQuotes v ++ '"' :: rest) true cur res
      = parseLineAux rest false (cur ++ v) res := by
  induction v with
  | nil =>
    intro rest cur res h
    simp only [escapeQuotes, List.nil_append, List.append_nil]
    exact parseLineAux_close rest cur res h
  | cons c v ih =>
    intro rest cur res h
    by_cases hc : c = '"'
    · subst hc
      show parseLineAux ('"' :: '"' :: (escapeQuotes v ++ '"' :: rest)) true cur res = _
      rw [parseLineAux_escape, ih _ _ _ h]
      simp [List.append_assoc]
    · have he : escapeQuotes (c :: v) ++ '"' :: rest
          = c :: (escapeQuotes v ++ '"' :: rest) := by
        simp [escapeQuotes, hc]
      rw [he, parseLineAux_other c _ true _ _ hc (fun _ => rfl), ih _ _ _ h]
      simp [List.append_assoc]

theorem parseLineAux_quoted_field (v rest cur : Str) (res : List Str)
    (h : rest.head? ≠ some '"') :
    parseLineAux (quoteField v ++ rest) false cur res
      = parseLineAux rest false (cur ++ v) res := by
  have h2 : quoteField v ++ rest = '"' :: (escapeQuotes v ++ '"' :: rest) := by
    simp [quoteField, List.append_assoc]
  rw [h2, parseLineAux_open]
  exact parseLineAux_escaped_field v rest cur res h

theorem parseLineAux_quoted_join (vs : List Str) : vs ≠ [] →
    (∀ v ∈ vs, jsTrim v = v) → ∀ res : List Str,
    parseLineAux (joinComma (vs.map quoteField)) false [] res = res ++ vs := by
  induction vs with
  | nil => intro hne; exact absurd rfl hne
  | cons v vs ih =>
    intro _ htrim res
    cases vs with
    | nil =>
      have h1 : joinComma ([v].map quoteField) = quoteField v ++ [] := by
        simp [joinComma]
      rw [h1, parseLineAux_quoted_field v [] [] res (by simp), parseLineAux_nil]
      simp [htrim v (by simp)]
    | cons w vs2 =>
      have h1 : joinComma ((v :: w :: vs2).map quoteField)
          = quoteField v ++ ',' :: joinComma ((w :: vs2).map quoteField) := rfl
      rw [h1, parseLineAux_quoted_field v _ [] res (by simp), parseLineAux_comma]
      simp only [List.nil_append, htrim v (by simp)]
      rw [ih (by simp) (fun x hx => htrim x (by simp [hx])) (res ++ [v])]
      simp

theorem parseLine_of_quoted (vs : List Str) (hne : vs ≠ [])
    (htrim : ∀ v ∈ vs, jsTrim v = v) :
    parseLine (joinComma (vs.map quoteField)) = vs := by
  have h := parseLineAux_quoted_join vs hne htrim []
  simpa [parseLine] using h

/-! ## Line splitting -/

theorem splitLines_nil : splitLines [] = [[]] := rfl

theorem splitLines_crlf (rest : Str) :
    splitLines ('\r' :: '\n' :: rest) = [] :: splitLines rest := rfl

theorem splitLines_lf (rest : Str) :
    splitLines ('\n' :: rest) = [] :: splitLines rest := rfl

theorem splitLines_cons (c : Char) (rest l : Str) (ls : List Str)
    (h1 : c ≠ '\n') (h2 : c = '\r' → rest.head? ≠ some '\n')
    (hsp : splitLines rest = l :: ls) :
    splitLines (c :: rest) = (c :: l) :: ls := by
  rw [splitLines.eq_def]
  split <;> simp_all

theorem splitLines_ne_nil (s : Str) : splitLines s ≠ [] := by
  induction s using splitLines.induct <;> rw [splitLines.eq_def] <;> (try split) <;>
    (try simp_all) <;> (split <;> simp_all)

theorem head?_ne_newline {l : Str} (h : '\n' ∉ l) : l.head? ≠ some '\n' := by
  cases l with
  | nil => simp
  | cons d l2 =>
    simp only [List.head?_cons, ne_eq, Option.some.injEq]
    intro hd
    exact h (by simp [hd])

theorem splitLines_no_newline (l : Str) (h : '\n' ∉ l) : splitLines l = [l] := by
  induction l with
  | nil => rfl
  | cons c l2 ih =>
    have hc : c ≠ '\n' := fun hc => h (by simp [hc])
    have h2 : '\n' ∉ l2 := fun hm => h (by simp [hm])
    exact splitLines_cons c l2 l2 [] hc (fun _ => head?_ne_newline h2) (ih h2)

theorem splitLines_append_newline (l : Str) (hnl : '\n' ∉ l)
    (hcr : l.getLast? ≠ some '\r') (t : Str) :
    splitLines (l ++ '\n' :: t) = l :: splitLines t := by
  induction l with
  | nil => exact splitLines_lf t
  | cons c l2 ih =>
    have hc : c ≠ '\n' := fun hc => hnl (by simp [hc])
    have h2 : '\n' ∉ l2 := fun hm => hnl (by simp [hm])
    cases l2 with
    | nil =>
      have hcr2 : c ≠ '\r' := by
        simpa using hcr
      exact splitLines_cons c ('\n' :: t) [] (splitLines t) hc
        (fun hr => absurd hr hcr2) (splitLines_lf t)
    | cons d l3 =>
      have hlast : (d :: l3).getLast? ≠ some '\r' := by
        rw [← List.getLast?_cons_cons]
        exact hcr
      have hd : d ≠ '\n' := fun hd => h2 (by simp [hd])
      refine splitLines_cons c ((d :: l3) ++ '\n' :: t) (d :: l3) (splitLines t) hc
        (fun _ => ?_) (ih h2 hlast)
      simp [hd]

theorem splitLines_joinLines (ls : List Str) : ls ≠ [] →
    (∀ l ∈ ls, '\n' ∉ l ∧ l.getLast? ≠ some '\r') →
    splitLines (joinLines ls) = ls := by
  induction ls with
  | nil => intro h; exact absurd rfl h
  | cons l ls ih =>
    intro _ hall
    cases ls with
    | nil =>
      show splitLines (joinLines [l]) = [l]
      exact splitLines_no_newline l (hall l (by simp)).1
    | cons l2 ls2 =>
      have h1 : joinLines (l :: l2 :: ls2) = l ++ '\n' :: joinLines (l2 :: ls2) := rfl
      rw [h1, splitLines_append_newline l (hall l (by simp)).1 (hall l (by simp)).2]
      rw [ih (by simp) (fun x hx => hall x (by simp [hx]))]

theorem mem_splitLines_no_newline (s : Str) :
    ∀ l ∈ splitLines s, '\n' ∉ l := by
  induction s using splitLines.induct with
  | case1 =>
    intro l hl
    simp only [splitLines_nil, List.mem_singleton] at hl
    simp [hl]
  | case2 rest ih =>
    intro l hl
    rw [splitLines_crlf] at hl
    rcases List.mem_cons.mp hl with h | h
    · simp [h]
    · exact ih l h
  | case3 rest ih =>
    intro l hl
    rw [splitLines_lf] at hl
    rcases List.mem_cons.mp hl with h | h
    · simp [h]
    · exact ih l h
  | case4 c rest h1 h2 hsp ih => exact absurd hsp (splitLines_ne_nil rest)
  | case5 c rest h1 h2 l0 ls hsp ih =>
    intro l hl
    have hc : c ≠ '\n' := fun hc => h2 hc
    have hh1 : c = '\r' → rest.head? ≠ some '\n' := by
      intro hr heq
      cases rest with
      | nil => simp at heq
      | cons d r2 =>
        simp only [List.head?_cons, Option.some.injEq] at heq
        exact h1 r2 hr (by rw [heq])
    rw [splitLines_cons c rest l0 ls hc hh1 hsp] at hl
    rcases List.mem_cons.mp hl with h | h
    · subst h
      intro hmem
      rcases List.mem_cons.mp hmem with h | h
      · exact hc h.symm
      · exact ih l0 (by simp [hsp]) h
    · intro hmem
      exact ih l (by simp [hsp, h]) hmem

/-! ## Characters of serialized lines -/

theorem mem_escapeQuotes {a : Char} {v : Str} (h : a ∈ escapeQuotes v) :
    a = '"' ∨ a ∈ v := by
  induction v with
  | nil => simp [escapeQuotes] at h
  | cons c v ih =>
    simp only [escapeQuotes, List.mem_append] at h
    rcases h with h | h
    · by_cases hc : c = '"'
      · rw [if_pos hc] at h
        rcases List.mem_cons.mp h with h | h
        · exact Or.inl h
        · rcases List.mem_cons.mp h with h | h
          · exact Or.inl h
          · exact absurd h (List.not_mem_nil a)
      · rw [if_neg hc] at h
        rcases List.mem_cons.mp h with h | h
        · exact Or.inr (by simp [h])
        · exact absurd h (List.not_mem_nil a)
    · rcases ih h with h | h
      · exact Or.inl h
      · exact Or.inr (by simp [h])

theorem mem_quoteField {a : Char} {v : Str} (h : a ∈ quoteField v) :
    a = '"' ∨ a ∈ v := by
  simp only [quoteField, List.mem_cons, List.mem_append, List.mem_singleton,
    List.not_mem_nil, or_false] at h
  rcases h with h | h | h
  · exact Or.inl h
  · exact mem_escapeQuotes h
  · exact Or.inl h

theorem mem_joinComma {a : Char} {fs : List Str} (h : a ∈ joinComma fs) :
    a = ',' ∨ ∃ f ∈ fs, a ∈ f := by
  induction fs with
  | nil => simp [joinComma] at h
  | cons f fs ih =>
    cases fs with
    | nil =>
      refine Or.inr ⟨f, by simp, ?_⟩
      simpa [joinComma] using h
    | cons g fs2 =>
      have h1 : joinComma (f :: g :: fs2) = f ++ ',' :: joinComma (g :: fs2) := rfl
      rw [h1] at h
      simp only [List.mem_append, List.mem_cons] at h
      rcases h with h | h | h
      · exact Or.inr ⟨f, by simp, h⟩
      · exact Or.inl h
      · rcases ih h with h | ⟨f2, hf2, ha⟩
        · exact Or.inl h
        · exact Or.inr ⟨f2, by simp [hf2], ha⟩

theorem mem_quoted_line {a : Char} {vs : List Str}
    (h : a ∈ joinComma (vs.map quoteField)) :
    a = ',' ∨ a = '"' ∨ ∃ v ∈ vs, a ∈ v := by
  rcases mem_joinComma h with h | ⟨f, hf, ha⟩
  · exact Or.inl h
  · rw [List.mem_map] at hf
    obtain ⟨v, hv, rfl⟩ := hf
    rcases mem_quoteField ha with h | h
    · exact Or.inr (Or.inl h)
    · exact Or.inr (Or.inr ⟨v, hv, h⟩)

theorem quoted_line_head (v : Str) (vs : List Str) :
    ∃ X, joinComma ((v :: vs).map quoteField) = '"' :: X := by
  cases vs with
  | nil => exact ⟨escapeQuotes v ++ ['"'], rfl⟩
  | cons w vs2 =>
    refine ⟨(escapeQuotes v ++ ['"']) ++ ',' :: joinComma ((w :: vs2).map quoteField), ?_⟩
    rfl

theorem quote_mem_quoted_line (v : Str) (vs : List Str) :
    '"' ∈ joinComma ((v :: vs).map quoteField) := by
  obtain ⟨X, hX⟩ := quoted_line_head v vs
  rw [hX]
  simp

theorem quoted_line_getLast (v : Str) (vs : List Str) :
    (joinComma ((v :: vs).map quoteField)).getLast? = some '"' := by
  induction vs generalizing v with
  | nil =>
    show (quoteField v).getLast? = some '"'
    have h : quoteField v = ('"' :: escapeQuotes v) ++ ['"'] := by
      simp [quoteField]
    rw [h, List.getLast?_concat]
  | cons w vs2 ih =>
    have h1 : joinComma ((v :: w :: vs2).map quoteField)
        = quoteField v ++ ',' :: joinComma ((w :: vs2).map quoteField) := rfl
    rw [h1, List.getLast?_append]
    have h2 : (',' :: joinComma ((w :: vs2).map quoteField)).getLast?
        = some '"' := by
      have h3 : (',' :: joinComma ((w :: vs2).map quoteField))
          = [','] ++ joinComma ((w :: vs2).map quoteField) := rfl
      rw [h3, List.getLast?_append, ih w]
      rfl
    rw [h2]
    rfl

theorem no_newline_quoted_line (vs : List Str) (h : ∀ v ∈ vs, '\n' ∉ v) :
    '\n' ∉ joinComma (vs.map quoteField) := by
  intro hmem
  rcases mem_quoted_line hmem with hc | hc | ⟨v, hv, ha⟩
  · exact absurd hc (by decide)
  · exact absurd hc (by decide)
  · exact h v hv ha

/-! ## Every field the splitter produces is trimmed, with characters from
the line -/

theorem parseLineAux_field_spec (cs : Str) (inQ : Bool) (cur : Str) (res : List Str) :
    ∀ f ∈ parseLineAux cs inQ cur res,
      f ∈ res ∨ ∃ m : Str, f = jsTrim m ∧ ∀ a ∈ m, a ∈ cur ∨ a ∈ cs := by
  induction cs, inQ, cur, res using parseLineAux.induct with
  | case1 inQ cur res =>
    intro f hf
    rw [parseLineAux_nil] at hf
    rcases List.mem_append.mp hf with h | h
    · exact Or.inl h
    · refine Or.inr ⟨cur, ?_, fun a ha => Or.inl ha⟩
      simpa using h
  | case2 rest cur res ih =>
    intro f hf
    rw [parseLineAux_escape] at hf
    rcases ih f hf with h | ⟨m, hm, hchars⟩
    · exact Or.inl h
    · refine Or.inr ⟨m, hm, fun a ha => ?_⟩
      rcases hchars a ha with h | h
      · rcases List.mem_append.mp h with h | h
        · exact Or.inl h
        · refine Or.inr ?_
          simp only [List.mem_singleton] at h
          simp [h]
      · exact Or.inr (by simp [h])
  | case3 rest cur res hguard ih =>
    intro f hf
    have hh : rest.head? ≠ some '"' := by
      intro heq
      cases rest with
      | nil => simp at heq
      | cons d r2 =>
        simp only [List.head?_cons, Option.some.injEq] at heq
        exact hguard r2 (by rw [heq])
    rw [parseLineAux_close rest cur res hh] at hf
    rcases ih f hf with h | ⟨m, hm, hchars⟩
    · exact Or.inl h
    · refine Or.inr ⟨m, hm, fun a ha => ?_⟩
      rcases hchars a ha with h | h
      · exact Or.inl h
      · exact Or.inr (by simp [h])
  | case4 rest cur res ih =>
    intro f hf
    rw [parseLineAux_open] at hf
    rcases ih f hf with h | ⟨m, hm, hchars⟩
    · exact Or.inl h
    · refine Or.inr ⟨m, hm, fun a ha => ?_⟩
      rcases hchars a ha with h | h
      · exact Or.inl h
      · exact Or.inr (by simp [h])
  | case5 rest cur res ih =>
    intro f hf
    rw [parseLineAux_comma] at hf
    rcases ih f hf with h | ⟨m, hm, hchars⟩
    · rcases List.mem_append.mp h with h | h
      · exact Or.inl h
      · refine Or.inr ⟨cur, ?_, fun a ha => Or.inl ha⟩
        simpa using h
    · refine Or.inr ⟨m, hm, fun a ha => ?_⟩
      rcases hchars a ha with h | h
      · exact absurd h (List.not_mem_nil a)
      · exact Or.inr (by simp [h])
  | case6 c rest inQ cur res g1 g2 g3 g4 ih =>
    intro f hf
    have hq : c ≠ '"' := by
      intro hc
      cases hb : inQ with
      | true => exact g2 hc hb
      | false => exact g3 hc hb
    have hcm : c = ',' → inQ = true := by
      intro hc
      cases hb : inQ with
      | true => rfl
      | false => exact absurd hb (fun hb2 => g4 hc hb2)
    rw [parseLineAux_other c rest inQ cur res hq hcm] at hf
    rcases ih f hf with h | ⟨m, hm, hchars⟩
    · exact Or.inl h
    · refine Or.inr ⟨m, hm, fun a ha => ?_⟩
      rcases hchars a ha with h | h
      · rcases List.mem_append.mp h with h | h
        · exact Or.inl h
        · refine Or.inr ?_
          simp only [List.mem_singleton] at h
          simp [h]
      · exact Or.inr (by simp [h])

theorem parseLine_field_trimmed {l f : Str} (hf : f ∈ parseLine l) :
    jsTrim f = f ∧ ∀ a ∈ f, a ∈ l := by
  rcases parseLineAux_field_spec l false [] [] f hf with h | ⟨m, hm, hchars⟩
  · exact absurd h (List.not_mem_nil f)
  · constructor
    · rw [hm, jsTrim_idem]
    · intro a ha
      rw [hm] at ha
      rcases hchars a (mem_of_mem_jsTrim ha) with h | h
      · exact absurd h (List.not_mem_nil a)
      · exact h

/-! ## JS-object theory: insertion, lookup, and row rebuilding -/

theorem keys_objInsert (k : Str) (v : Str) (r : SRow) :
    (objInsert k v r).map Prod.fst
      = if k ∈ r.map Prod.fst then r.map Prod.fst else r.map Prod.fst ++ [k] := by
  induction r with
  | nil => simp [objInsert]
  | cons kv rest ih =>
    obtain ⟨k2, v2⟩ := kv
    by_cases hk : k2 = k
    · subst hk
      simp [objInsert]
    · simp only [objInsert, if_neg hk, List.map_cons, ih]
      by_cases hmem : k ∈ rest.map Prod.fst
      · simp [hmem, hk, Ne.symm hk]
      · simp [hmem, hk, Ne.symm hk]

theorem nodup_keys_objInsert (k : Str) (v : Str) (r : SRow)
    (h : (r.map Prod.fst).Nodup) : ((objInsert k v r).map Prod.fst).Nodup := by
  rw [keys_objInsert]
  by_cases hmem : k ∈ r.map Prod.fst
  · rw [if_pos hmem]
    exact h
  · rw [if_neg hmem]
    simp [List.nodup_append, h, hmem]

theorem lookup_objInsert (a k : Str) (v : Str) (r : SRow) :
    objLookup a (objInsert k v r) = if k = a then some v else objLookup a r := by
  induction r with
  | nil => simp [objInsert, objLookup]
  | cons kv rest ih =>
    obtain ⟨k2, v2⟩ := kv
    by_cases hk : k2 = k
    · subst hk
      by_cases ha : k2 = a <;> simp [objInsert, objLookup, ha]
    · by_cases ha : k2 = a
      · have hka : ¬k = a := fun he => hk (ha.trans he.symm)
        have hak : ¬a = k := fun he => hka he.symm
        simp [objInsert, objLookup, hk, ha, hka, hak]
      · simp [objInsert, objLookup, hk, ha, ih]

theorem lookup_eq_none_of_not_mem (a : Str) (r : SRow)
    (h : a ∉ r.map Prod.fst) : objLookup a r = none := by
  induction r with
  | nil => rfl
  | cons kv rest ih =>
    obtain ⟨k2, v2⟩ := kv
    simp only [List.map_cons, List.mem_cons, not_or] at h
    simp [objLookup, Ne.symm h.1, ih h.2]

theorem objRow_ext (r1 r2 : SRow) (hkeys : r1.map Prod.fst = r2.map Prod.fst)
    (hnd : (r1.map Prod.fst).Nodup)
    (hlook : ∀ a, objLookup a r1 = objLookup a r2) : r1 = r2 := by
  induction r1 generalizing r2 with
  | nil =>
    cases r2 with
    | nil => rfl
    | cons kv rest => simp at hkeys
  | cons kv rest ih =>
    obtain ⟨k, v⟩ := kv
    cases r2 with
    | nil => simp at hkeys
    | cons kv2 rest2 =>
      obtain ⟨k2, v2⟩ := kv2
      simp only [List.map_cons, List.cons.injEq] at hkeys
      have hk : k = k2 := hkeys.1
      subst hk
      have hv : v = v2 := by
        have := hlook k
        simpa [objLookup] using this
      subst hv
      simp only [List.map_cons, List.nodup_cons] at hnd
      refine congrArg _ (ih rest2 hkeys.2 hnd.2 ?_)
      intro a
      by_cases ha : a = k
      · subst ha
        rw [lookup_eq_none_of_not_mem a rest hnd.1,
          lookup_eq_none_of_not_mem a rest2 (hkeys.2 ▸ hnd.1)]
      · have hne : ¬k = a := fun he => ha he.symm
        have := hlook a
        simpa [objLookup, hne] using this

theorem keys_buildRow (hs : List Str) : ∀ (vs vs2 : List Str) (row row2 : SRow),
    row.map Prod.fst = row2.map Prod.fst →
    (buildRow hs vs row).map Prod.fst = (buildRow hs vs2 row2).map Prod.fst := by
  induction hs with
  | nil => intro vs vs2 row row2 h; exact h
  | cons h0 hs ih =>
    intro vs vs2 row row2 h
    refine ih vs.tail vs2.tail _ _ ?_
    rw [keys_objInsert, keys_objInsert, h]

theorem nodup_keys_buildRow (hs : List Str) : ∀ (vs : List Str) (row : SRow),
    (row.map Prod.fst).Nodup → ((buildRow hs vs row).map Prod.fst).Nodup := by
  induction hs with
  | nil => intro vs row h; exact h
  | cons h0 hs ih =>
    intro vs row h
    exact ih vs.tail _ (nodup_keys_objInsert h0 _ row h)

theorem lookup_buildRow (a : Str) (hs : List Str) : ∀ (vs : List Str) (row : SRow),
    objLookup a (buildRow hs vs row)
      = match lastVal a hs vs with
        | some w => some w
        | none => objLookup a row := by
  induction hs with
  | nil => intro vs row; rfl
  | cons h0 hs ih =>
    intro vs row
    show objLookup a (buildRow hs vs.tail (objInsert h0 (vs.headD []) row))
      = _
    rw [ih vs.tail _]
    rw [lookup_objInsert]
    show _ = (match (match lastVal a hs vs.tail with
      | some w => some w
      | none => if h0 = a then some (vs.headD []) else none) with
      | some w => some w
      | none => objLookup a row)
    cases lastVal a hs vs.tail with
    | some w => rfl
    | none =>
      by_cases hh : h0 = a
      · simp [hh]
      · simp [hh]

theorem lastVal_map (a : Str) (f : Str → Str) (hs : List Str) :
    lastVal a hs (hs.map f) = if a ∈ hs then some (f a) else none := by
  induction hs with
  | nil => simp [lastVal]
  | cons h0 hs ih =>
    show (match lastVal a hs (f h0 :: hs.map f).tail with
      | some w => some w
      | none => if h0 = a then some ((f h0 :: hs.map f).headD []) else none)
      = if a ∈ h0 :: hs then some (f a) else none
    rw [show (f h0 :: hs.map f).tail = hs.map f from rfl,
      show (f h0 :: hs.map f).headD [] = f h0 from rfl, ih]
    by_cases hmem : a ∈ hs
    · simp [hmem, List.mem_cons]
    · by_cases hh : h0 = a
      · subst hh
        simp [hmem]
      · have hne : a ∉ h0 :: hs := by
          simp only [List.mem_cons, not_or]
          exact ⟨fun he => hh he.symm, hmem⟩
        simp [hmem, hh, hne]

theorem lastVal_isSome (a : Str) (hs : List Str) (vs : List Str) (h : a ∈ hs) :
    (lastVal a hs vs).isSome := by
  induction hs generalizing vs with
  | nil => simp at h
  | cons h0 hs ih =>
    show (match lastVal a hs vs.tail with
      | some w => some w
      | none => if h0 = a then some (vs.headD []) else none).isSome
    rcases List.mem_cons.mp h with h | h
    · cases hl : lastVal a hs vs.tail with
      | some w => simp
      | none => simp [h.symm]
    · cases hl : lastVal a hs vs.tail with
      | some w => simp
      | none =>
        have := ih vs.tail h
        rw [hl] at this
        simp at this

theorem lastVal_none (a : Str) (hs : List Str) (vs : List Str) (h : a ∉ hs) :
    lastVal a hs vs = none := by
  induction hs generalizing vs with
  | nil => rfl
  | cons h0 hs ih =>
    simp only [List.mem_cons, not_or] at h
    show (match lastVal a hs vs.tail with
      | some w => some w
      | none => if h0 = a then some (vs.headD []) else none) = none
    rw [ih vs.tail h.2, if_neg (fun he => h.1 he.symm)]

theorem lastVal_mem (a : Str) (hs : List Str) : ∀ (vs : List Str) (w : Str),
    lastVal a hs vs = some w → w ∈ vs ∨ w = [] := by
  induction hs with
  | nil => intro vs w h; exact absurd h (by simp [lastVal])
  | cons h0 hs ih =>
    intro vs w h
    rw [show lastVal a (h0 :: hs) vs = (match lastVal a hs vs.tail with
      | some w => some w
      | none => if h0 = a then some (vs.headD []) else none) from rfl] at h
    cases hl : lastVal a hs vs.tail with
    | some w2 =>
      rw [hl] at h
      simp only [Option.some.injEq] at h
      subst h
      rcases ih vs.tail w2 hl with h | h
      · exact Or.inl (List.mem_of_mem_tail h)
      · exact Or.inr h
    | none =>
      rw [hl] at h
      by_cases hh : h0 = a
      · rw [if_pos hh] at h
        simp only [Option.some.injEq] at h
        subst h
        cases vs with
        | nil => exact Or.inr rfl
        | cons v vs2 => exact Or.inl (by simp)
      · rw [if_neg hh] at h
        exact absurd h (by simp)

theorem buildRow_rebuild (hs vs : List Str) :
    buildRow hs (hs.map (fun a => (objLookup a (buildRow hs vs [])).getD [])) [] 
      = buildRow hs vs [] := by
  apply objRow_ext
  · exact keys_buildRow hs _ vs [] [] rfl
  · exact nodup_keys_buildRow hs _ [] List.nodup_nil
  · intro a
    rw [lookup_buildRow, lookup_buildRow, lastVal_map]
    by_cases hmem : a ∈ hs
    · rw [if_pos hmem]
      obtain ⟨w, hw⟩ := Option.isSome_iff_exists.mp (lastVal_isSome a hs vs hmem)
      rw [hw, lookup_buildRow, hw]
      rfl
    · rw [if_neg hmem, lastVal_none a hs vs hmem]

theorem buildRow_value_spec (hs vs : List Str) (a : Str) :
    (objLookup a (buildRow hs vs [])).getD [] ∈ vs
      ∨ (objLookup a (buildRow hs vs [])).getD [] = [] := by
  rw [lookup_buildRow]
  cases hl : lastVal a hs vs with
  | none => exact Or.inr rfl
  | some w => simpa using lastVal_mem a hs vs w hl

theorem coalesce_recOfSRow (r : SRow) (c : Str) :
    coalesceToString (jsGet (recOfSRow r) c) = (objLookup c r).getD [] := by
  induction r with
  | nil => rfl
  | cons kv rest ih =>
    obtain ⟨k, v⟩ := kv
    by_cases hk : k = c
    · simp [recOfSRow, jsGet, objLookup, hk, coalesceToString, jsValueToString]
    · have h1 : jsGet (recOfSRow ((k, v) :: rest)) c = jsGet (recOfSRow rest) c := by
        simp [recOfSRow, jsGet, objLookup, hk]
      have h2 : objLookup c ((k, v) :: rest) = objLookup c rest := by
        simp [objLookup, hk]
      rw [h1, h2, ih]

/-! ## Structure of the serialized text -/

theorem escapeQuotes_eq_self {v : Str} (h : '"' ∉ v) : escapeQuotes v = v := by
  induction v with
  | nil => rfl
  | cons c v ih =>
    have hc : c ≠ '"' := fun he => h (by simp [he])
    have hv : '"' ∉ v := fun hm => h (by simp [hm])
    show (if c = '"' then ['"', '"'] else [c]) ++ escapeQuotes v = c :: v
    rw [if_neg hc, ih hv]
    rfl

theorem quoteRaw_eq_quoteField {v : Str} (h : '"' ∉ v) : quoteRaw v = quoteField v := by
  rw [quoteRaw, quoteField, escapeQuotes_eq_self h]

theorem gen_eq_joinLines (r0 : SRow) (rs : List SRow) (hs : List Str) :
    generateCSVContent ((r0 :: rs).map recOfSRow) (some hs)
      = joinLines ((joinComma (hs.map quoteRaw))
          :: (r0 :: rs).map (fun r =>
            joinComma ((hs.map (fun c => (objLookup c r).getD [])).map quoteField))) := by
  show joinLines ((joinComma (hs.map quoteRaw))
      :: (recOfSRow r0 :: rs.map recOfSRow).map (fun row =>
        joinComma (hs.map (fun c => quoteField (coalesceToString (jsGet row c)))))) = _
  refine congrArg _ (congrArg _ ?_)
  have hmaps : (recOfSRow r0 :: rs.map recOfSRow) = (r0 :: rs).map recOfSRow := rfl
  rw [hmaps, List.map_map]
  refine List.map_congr_left ?_
  intro r _
  show joinComma (hs.map (fun c => quoteField (coalesceToString (jsGet (recOfSRow r) c)))) = _
  rw [List.map_map]
  refine congrArg _ (List.map_congr_left ?_)
  intro c _
  show quoteField (coalesceToString (jsGet (recOfSRow r) c)) = _
  rw [coalesce_recOfSRow]
  rfl

/-- C5 fails on the code in two ways. Zero-row CSVs: `parse "a"` succeeds
with one header and no rows, but serializing zero rows returns the empty
string, whose re-parse raises the empty-input error instead of reproducing
the headers. Quoted header names: parsing `"a""b"` then `1` succeeds with one
data row and the header `a"b`, but the serializer writes header names without
quote escaping, so the header line `"a"b"` re-parses to the different header
`ab`. -/
theorem C5_counterexample :
    (parseCSVContent "a".toList
        = .ok (ParsedCSV.mk ["a".toList] [] [ColumnInfo.mk "a".toList .string []] 0) ∧
      generateCSVContent ([] : List Rec) (some ["a".toList]) = [] ∧
      parseCSVContent (generateCSVContent ([] : List Rec) (some ["a".toList]))
        = .error .emptyInput) ∧
    (parseCSVContent "\"a\"\"b\"\n1".toList
        = .ok (ParsedCSV.mk ["a\"b".toList]
            [[("a\"b".toList, "1".toList)]]
            [ColumnInfo.mk "a\"b".toList .boolean ["1".toList]] 1) ∧
      parseCSVContent (generateCSVContent
          ([[("a\"b".toList, "1".toList)]].map recOfSRow) (some ["a\"b".toList]))
        = .ok (ParsedCSV.mk ["ab".toList]
            [[("ab".toList, "1".toList)]]
            [ColumnInfo.mk "ab".toList .boolean ["1".toList]] 1) ∧
      (["ab".toList] : List Str) ≠ ["a\"b".toList]) := by
  decide

/-- C5 amended: for every input on which parse succeeds **with at least one
data row and no double-quote character in any header name**, serializing the
parsed rows with the original header order and re-parsing yields the same
headers and the same rows. (Header names are serialized without quote
escaping, so a header containing a quote re-parses to a different name.) -/
theorem C5_roundtrip (content : Str) (p : ParsedCSV)
    (hok : parseCSVContent content = .ok p) (hrows : p.rows ≠ [])
    (hq : ∀ v ∈ p.headers, '"' ∉ v) :
    ∃ p2, parseCSVContent (generateCSVContent (p.rows.map recOfSRow) (some p.headers))
        = .ok p2 ∧ p2.headers = p.headers ∧ p2.rows = p.rows := by
  cases hc : csvLines content with
  | nil =>
    rw [parseCSVContent_of_lines_nil content hc] at hok
    exact absurd hok (by simp)
  | cons l0 rest =>
  cases hcond : ((parseLine l0).isEmpty || (parseLine l0).all List.isEmpty) with
  | true =>
    rw [parseCSVContent_of_bad_header content l0 rest hc hcond] at hok
    exact absurd hok (by simp)
  | false =>
  obtain ⟨p0, hp0, hh0, hr0⟩ := parseCSVContent_of_good_header content l0 rest hc hcond
  rw [hp0] at hok
  have hpp : p0 = p := by
    injection hok
  rw [hpp] at hh0 hr0
  -- degenerate-header condition split
  have hcond2 : (parseLine l0).isEmpty = false ∧ (parseLine l0).all List.isEmpty = false := by
    simpa using hcond
  have hhne : parseLine l0 ≠ [] := by
    intro he
    rw [he] at hcond2
    simp at hcond2
  -- the header line of the original text
  have hl0mem : l0 ∈ splitLines content := by
    have h1 : l0 ∈ csvLines content := by
      rw [hc]
      exact List.mem_cons_self l0 rest
    exact List.mem_of_mem_filter h1
  have hl0nl : '\n' ∉ l0 := mem_splitLines_no_newline content l0 hl0mem
  have hhtrim : ∀ v ∈ parseLine l0, jsTrim v = v :=
    fun v hv => (parseLine_field_trimmed hv).1
  have hhnl : ∀ v ∈ parseLine l0, '\n' ∉ v :=
    fun v hv hm => hl0nl ((parseLine_field_trimmed hv).2 _ hm)
  -- every cell every parsed row stores is trimmed and newline-free
  have hval : ∀ r ∈ p.rows, ∀ c : Str,
      jsTrim ((objLookup c r).getD []) = (objLookup c r).getD []
        ∧ '\n' ∉ (objLookup c r).getD [] := by
    intro r hr c
    rw [hr0] at hr
    obtain ⟨line, hline, rfl⟩ := List.mem_map.mp hr
    have hlmem : line ∈ splitLines content := by
      have h1 : line ∈ csvLines content := by
        rw [hc]
        exact List.mem_cons_of_mem _ hline
      exact List.mem_of_mem_filter h1
    have hlnl : '\n' ∉ line := mem_splitLines_no_newline content line hlmem
    rcases buildRow_value_spec (parseLine l0) (parseLine line) c with h | h
    · exact ⟨(parseLine_field_trimmed h).1, fun hm => hlnl ((parseLine_field_trimmed h).2 _ hm)⟩
    · rw [h]
      exact ⟨rfl, by simp⟩
  -- the serialized text
  obtain ⟨r0, rs, hrr⟩ : ∃ r0 rs, p.rows = r0 :: rs := by
    cases hpr : p.rows with
    | nil => exact absurd hpr hrows
    | cons a b => exact ⟨a, b, rfl⟩
  have hq2 : ∀ v ∈ parseLine l0, '"' ∉ v := by
    rw [← hh0]
    exact hq
  have hhdr : (parseLine l0).map quoteRaw = (parseLine l0).map quoteField :=
    List.map_congr_left (fun v hv => quoteRaw_eq_quoteField (hq2 v hv))
  have hgen : generateCSVContent (p.rows.map recOfSRow) (some p.headers)
      = joinLines ((joinComma ((parseLine l0).map quoteField))
          :: p.rows.map (fun r =>
            joinComma (((parseLine l0).map (fun c => (objLookup c r).getD [])).map quoteField))) := by
    rw [hh0]
    rw [hrr]
    rw [gen_eq_joinLines r0 rs (parseLine l0), hhdr]
  obtain ⟨h0, hs1, hhs⟩ : ∃ h0 hs1, parseLine l0 = h0 :: hs1 := by
    cases hx : parseLine l0 with
    | nil => exact absurd hx hhne
    | cons a b => exact ⟨a, b, rfl⟩
  -- facts about every serialized line
  have hLnl : ∀ l ∈ (joinComma ((parseLine l0).map quoteField))
      :: p.rows.map (fun r =>
        joinComma (((parseLine l0).map (fun c => (objLookup c r).getD [])).map quoteField)),
      '\n' ∉ l ∧ l.getLast? ≠ some '\r' := by
    intro l hl
    rcases List.mem_cons.mp hl with h | h
    · subst h
      constructor
      · exact no_newline_quoted_line _ hhnl
      · rw [hhs, quoted_line_getLast]
        simp
    · obtain ⟨r, hr, rfl⟩ := List.mem_map.mp h
      constructor
      · refine no_newline_quoted_line _ ?_
        intro v hv
        obtain ⟨c, _, rfl⟩ := List.mem_map.mp hv
        exact (hval r hr c).2
      · rw [hhs, List.map_cons, quoted_line_getLast]
        simp
  have hquote : ∀ l ∈ (joinComma ((parseLine l0).map quoteField))
      :: p.rows.map (fun r =>
        joinComma (((parseLine l0).map (fun c => (objLookup c r).getD [])).map quoteField)),
      '"' ∈ l := by
    intro l hl
    rcases List.mem_cons.mp hl with h | h
    · subst h
      rw [hhs]
      exact quote_mem_quoted_line h0 hs1
    · obtain ⟨r, hr, rfl⟩ := List.mem_map.mp h
      rw [hhs, List.map_cons]
      exact quote_mem_quoted_line _ _
  -- split and filter of the serialized text
  have hsplit : csvLines (generateCSVContent (p.rows.map recOfSRow) (some p.headers))
      = (joinComma ((parseLine l0).map quoteField))
          :: p.rows.map (fun r =>
            joinComma (((parseLine l0).map (fun c => (objLookup c r).getD [])).map quoteField)) := by
    rw [hgen, csvLines, splitLines_joinLines _ (by simp) hLnl]
    refine List.filter_eq_self.mpr ?_
    intro l hl
    have h1 : jsTrim l ≠ [] := jsTrim_ne_nil_of_quote (hquote l hl)
    have h2 : (jsTrim l).isEmpty = false := by
      cases he : jsTrim l with
      | nil => exact absurd he h1
      | cons a b => rfl
    simp [h2]
  -- the header line re-parses to the original headers
  have hph : parseLine (joinComma ((parseLine l0).map quoteField)) = parseLine l0 :=
    parseLine_of_quoted (parseLine l0) hhne hhtrim
  have hcond3 : ((parseLine (joinComma ((parseLine l0).map quoteField))).isEmpty
      || (parseLine (joinComma ((parseLine l0).map quoteField))).all List.isEmpty) = false := by
    rw [hph]
    exact hcond
  obtain ⟨p2, hp2, hh2, hr2⟩ := parseCSVContent_of_good_header _ _ _ hsplit hcond3
  refine ⟨p2, hp2, ?_, ?_⟩
  · rw [hh2, hph, hh0]
  · rw [hr2, hph, List.map_map]
    have hid : ∀ r ∈ p.rows,
        ((fun line => buildRow (parseLine l0) (parseLine line) []) ∘
          (fun r => joinComma (((parseLine l0).map
            (fun c => (objLookup c r).getD [])).map quoteField))) r = r := by
      intro r hr
      show buildRow (parseLine l0)
        (parseLine (joinComma (((parseLine l0).map
          (fun c => (objLookup c r).getD [])).map quoteField))) [] = r
      have hvne : (parseLine l0).map (fun c => (objLookup c r).getD []) ≠ [] := by
        rw [hhs]
        simp
      have hvtrim : ∀ v ∈ (parseLine l0).map (fun c => (objLookup c r).getD []),
          jsTrim v = v := by
        intro v hv
        obtain ⟨c, _, rfl⟩ := List.mem_map.mp hv
        exact (hval r hr c).1
      rw [parseLine_of_quoted _ hvne hvtrim]
      rw [hr0] at hr
      obtain ⟨line, hline, rfl⟩ := List.mem_map.mp hr
      exact buildRow_rebuild (parseLine l0) (parseLine line)
    rw [List.map_congr_left hid]
    exact List.map_id' p.rows

/-- Closed instance of the amended C5: a two-column one-row CSV round-trips
through serialize-then-parse. -/
theorem C5_witness :
    ∃ p2, parseCSVContent (generateCSVContent
        ((ParsedCSV.mk ["a".toList, "b".toList]
          [[("a".toList, "1".toList), ("b".toList, "2".toList)]]
          [ColumnInfo.mk "a".toList .boolean ["1".toList],
            ColumnInfo.mk "b".toList .number ["2".toList]] 1).rows.map recOfSRow)
        (some (ParsedCSV.mk ["a".toList, "b".toList]
          [[("a".toList, "1".toList), ("b".toList, "2".toList)]]
          [ColumnInfo.mk "a".toList .boolean ["1".toList],
            ColumnInfo.mk "b".toList .number ["2".toList]] 1).headers))
        = .ok p2
      ∧ p2.headers = (ParsedCSV.mk ["a".toList, "b".toList]
          [[("a".toList, "1".toList), ("b".toList, "2".toList)]]
          [ColumnInfo.mk "a".toList .boolean ["1".toList],
            ColumnInfo.mk "b".toList .number ["2".toList]] 1).headers
      ∧ p2.rows = (ParsedCSV.mk ["a".toList, "b".toList]
          [[("a".toList, "1".toList), ("b".toList, "2".toList)]]
          [ColumnInfo.mk "a".toList .boolean ["1".toList],
            ColumnInfo.mk "b".toList .number ["2".toList]] 1).rows :=
  C5_roundtrip ("a,b\n1,2".toList)
    (ParsedCSV.mk ["a".toList, "b".toList]
      [[("a".toList, "1".toList), ("b".toList, "2".toList)]]
      [ColumnInfo.mk "a".toList .boolean ["1".toList],
        ColumnInfo.mk "b".toList .number ["2".toList]] 1)
    (by decide) (by decide) (by decide)

end DataWhisperer
